import Mathlib

/-!
Verification of the Solidry governance layer: the admission controller
(rate limiter), the analysis result cache, the confidence scorer, and the
request-handling control flow of the analyze-multi route.

Each definition is a shallow embedding of the corresponding TypeScript
source. JavaScript numbers holding counts and millisecond timestamps are
modelled as Int (their values stay far below 2^53, where float64 integer
arithmetic is exact). A JavaScript Map is modelled as an association list
that preserves insertion order, with set keeping the position of an
existing key and appending a new one, matching Map iteration semantics.
-/

namespace Solidry

/-! ### JavaScript Map model -/

/-- Lookup in a JS Map (first matching key; keys are unique by construction). -/
def mapGet {α : Type} : List (String × α) → String → Option α
  | [], _ => none
  | (k', v) :: rest, k => if k' = k then some v else mapGet rest k

/-- JS Map.set: replace in place when the key exists, append otherwise. -/
def mapSet {α : Type} : List (String × α) → String → α → List (String × α)
  | [], k, v => [(k, v)]
  | (k', v') :: rest, k, v =>
      if k' = k then (k', v) :: rest else (k', v') :: mapSet rest k v

/-- JS Map.delete: remove the entry with the given key. -/
def mapDelete {α : Type} (m : List (String × α)) (k : String) : List (String × α) :=
  m.filter (fun p => p.1 ≠ k)

theorem mapGet_mapSet_self {α : Type} (m : List (String × α)) (k : String) (v : α) :
    mapGet (mapSet m k v) k = some v := by
  induction m with
  | nil => simp [mapGet, mapSet]
  | cons p rest ih =>
      by_cases h : p.1 = k
      · simp [mapGet, mapSet, h]
      · simp [mapGet, mapSet, h, ih]

theorem mapGet_mapSet_ne {α : Type} (m : List (String × α)) {k k' : String} (v : α)
    (h : k' ≠ k) : mapGet (mapSet m k v) k' = mapGet m k' := by
  have h' : ¬ k = k' := fun hh => h hh.symm
  induction m with
  | nil => simp [mapGet, mapSet, h']
  | cons p rest ih =>
      by_cases hp : p.1 = k
      · have hp2 : ¬ p.1 = k' := by rw [hp]; exact h'
        simp [mapGet, mapSet, hp, hp2, h']
      · simp [mapGet, mapSet, hp, ih]

theorem mapGet_mapDelete_self {α : Type} (m : List (String × α)) (k : String) :
    mapGet (mapDelete m k) k = none := by
  induction m with
  | nil => simp [mapGet, mapDelete]
  | cons p rest ih =>
      by_cases h : p.1 = k
      · simpa [mapDelete, h] using ih
      · simpa [mapDelete, mapGet, h] using ih

theorem mapGet_mapDelete_ne {α : Type} (m : List (String × α)) {k k' : String}
    (h : k' ≠ k) : mapGet (mapDelete m k) k' = mapGet m k' := by
  have h' : ¬ k = k' := fun hh => h hh.symm
  induction m with
  | nil => simp [mapGet, mapDelete]
  | cons p rest ih =>
      by_cases hp : p.1 = k
      · have hstep : mapDelete (p :: rest) k = mapDelete rest k := by
          simp [mapDelete, List.filter_cons, hp]
        have hp2 : ¬ p.1 = k' := by rw [hp]; exact h'
        rw [hstep, ih]
        simp [mapGet, hp2]
      · have hstep : mapDelete (p :: rest) k = p :: mapDelete rest k := by
          simp [mapDelete, List.filter_cons, hp]
        rw [hstep]
        simp [mapGet, ih]

theorem mapSet_length_absent {α : Type} (m : List (String × α)) (k : String) (v : α)
    (h : mapGet m k = none) : (mapSet m k v).length = m.length + 1 := by
  induction m with
  | nil => simp [mapSet]
  | cons p rest ih =>
      by_cases hp : p.1 = k
      · simp [mapGet, hp] at h
      · simp only [mapGet, hp, if_neg hp, ite_false] at h
        simp [mapSet, hp, ih h]

theorem mapDelete_length_mem_nodup {α : Type} (m : List (String × α)) (k : String) (e : α)
    (hnd : (m.map Prod.fst).Nodup) (hmem : (k, e) ∈ m) :
    (mapDelete m k).length + 1 = m.length := by
  induction m with
  | nil => simp at hmem
  | cons p rest ih =>
      simp only [List.map_cons, List.nodup_cons] at hnd
      rcases List.mem_cons.mp hmem with hh | hh
      · have hk : p.1 = k := by rw [← hh]
        have hrest : mapDelete rest k = rest := by
          unfold mapDelete
          apply List.filter_eq_self.mpr
          intro q hq
          have hqmem : q.1 ∈ rest.map Prod.fst := List.mem_map.mpr ⟨q, hq, rfl⟩
          have hqk : q.1 ≠ k := by
            intro hqe
            apply hnd.1
            rw [hk, ← hqe]
            exact hqmem
          simpa using hqk
        have hstep : mapDelete (p :: rest) k = mapDelete rest k := by
          simp [mapDelete, List.filter_cons, hk]
        rw [hstep, hrest]
        simp
      · have hkmem : k ∈ rest.map Prod.fst := List.mem_map.mpr ⟨(k, e), hh, rfl⟩
        have hp : p.1 ≠ k := fun hk2 => hnd.1 (hk2 ▸ hkmem)
        have hstep : mapDelete (p :: rest) k = p :: mapDelete rest k := by
          simp [mapDelete, List.filter_cons, hp]
        rw [hstep]
        have hlen := ih hnd.2 hh
        simp only [List.length_cons]
        omega

/-! ### Admission controller (rate limiter)

Shallow embedding of the TestRateLimiter class exercised by the
rate-limiter test suite: a fixed-window counter keyed by caller identity. -/

structure RateLimitConfig where
  maxRequestsPerDay : Int
  windowMs : Int
deriving DecidableEq

structure RateEntry where
  count : Int
  windowStart : Int
deriving DecidableEq

abbrev RateStore := List (String × RateEntry)

structure RateLimitResult where
  allowed : Bool
  remaining : Int
  resetAt : Int
  limit : Int
deriving DecidableEq

namespace TestRateLimiter

/-- Read-only admission check. Mirrors TestRateLimiter.check: a missing or
expired entry yields allowed with the full limit remaining; otherwise
remaining = max 0 (limit - count) and allowed = (remaining > 0). -/
def check (cfg : RateLimitConfig) (store : RateStore) (now : Int) (ip : String) :
    RateLimitResult :=
  match mapGet store ip with
  | none =>
      { allowed := true, remaining := cfg.maxRequestsPerDay,
        resetAt := now + cfg.windowMs, limit := cfg.maxRequestsPerDay }
  | some entry =>
      if cfg.windowMs ≤ now - entry.windowStart then
        { allowed := true, remaining := cfg.maxRequestsPerDay,
          resetAt := now + cfg.windowMs, limit := cfg.maxRequestsPerDay }
      else
        let remaining := max 0 (cfg.maxRequestsPerDay - entry.count)
        { allowed := decide (0 < remaining), remaining := remaining,
          resetAt := entry.windowStart + cfg.windowMs, limit := cfg.maxRequestsPerDay }

/-- Mutating consumption. Mirrors TestRateLimiter.consume: a missing or
expired entry is replaced by a fresh one with count 1 and the call reports
allowed with remaining = limit - 1 (no lower clamp); otherwise the count is
incremented and allowed = (remaining >= 0 and count <= limit). -/
def consume (cfg : RateLimitConfig) (store : RateStore) (now : Int) (ip : String) :
    RateLimitResult × RateStore :=
  match mapGet store ip with
  | none =>
      ({ allowed := true, remaining := cfg.maxRequestsPerDay - 1,
         resetAt := now + cfg.windowMs, limit := cfg.maxRequestsPerDay },
       mapSet store ip { count := 1, windowStart := now })
  | some entry =>
      if cfg.windowMs ≤ now - entry.windowStart then
        ({ allowed := true, remaining := cfg.maxRequestsPerDay - 1,
           resetAt := now + cfg.windowMs, limit := cfg.maxRequestsPerDay },
         mapSet store ip { count := 1, windowStart := now })
      else
        let newCount := entry.count + 1
        let remaining := max 0 (cfg.maxRequestsPerDay - newCount)
        ({ allowed := decide (0 ≤ remaining) && decide (newCount ≤ cfg.maxRequestsPerDay),
           remaining := remaining,
           resetAt := entry.windowStart + cfg.windowMs, limit := cfg.maxRequestsPerDay },
         mapSet store ip { count := newCount, windowStart := entry.windowStart })

end TestRateLimiter

/-- C1: admission window correctness. For quota 3 and window length W, a
fresh caller gets allowed on three consume calls inside the window, is
denied on a fourth inside the same window, and once W has elapsed since the
window started the next consume installs a fresh entry with count 1 and
returns allowed with remaining = limit - 1. -/
theorem admission_window_correctness
    (store : RateStore) (ip : String) (W t1 t2 t3 t4 t5 : Int)
    (h0 : mapGet store ip = none)
    (h2 : t2 - t1 < W) (h3 : t3 - t1 < W) (h4 : t4 - t1 < W) (h5 : W ≤ t5 - t1) :
    ∃ r1 r2 r3 r4 r5 : RateLimitResult × RateStore,
      r1 = TestRateLimiter.consume ⟨3, W⟩ store t1 ip ∧
      r2 = TestRateLimiter.consume ⟨3, W⟩ r1.2 t2 ip ∧
      r3 = TestRateLimiter.consume ⟨3, W⟩ r2.2 t3 ip ∧
      r4 = TestRateLimiter.consume ⟨3, W⟩ r3.2 t4 ip ∧
      r5 = TestRateLimiter.consume ⟨3, W⟩ r4.2 t5 ip ∧
      r1.1.allowed = true ∧ r2.1.allowed = true ∧ r3.1.allowed = true ∧
      r4.1.allowed = false ∧
      r5.1.allowed = true ∧ r5.1.remaining = 3 - 1 ∧
      mapGet r5.2 ip = some ⟨1, t5⟩ := by
  refine ⟨_, _, _, _, _, rfl, rfl, rfl, rfl, rfl, ?_⟩
  have hW2 : ¬ (W ≤ t2 - t1) := not_le.mpr h2
  have hW3 : ¬ (W ≤ t3 - t1) := not_le.mpr h3
  have hW4 : ¬ (W ≤ t4 - t1) := not_le.mpr h4
  have e1 : TestRateLimiter.consume ⟨3, W⟩ store t1 ip =
      ({ allowed := true, remaining := 2, resetAt := t1 + W, limit := 3 },
       mapSet store ip ⟨1, t1⟩) := by
    simp [TestRateLimiter.consume, h0]
  rw [e1]
  have g1 : mapGet (mapSet store ip (⟨1, t1⟩ : RateEntry)) ip = some ⟨1, t1⟩ :=
    mapGet_mapSet_self ..
  have e2 : TestRateLimiter.consume ⟨3, W⟩ (mapSet store ip ⟨1, t1⟩) t2 ip =
      ({ allowed := true, remaining := 1, resetAt := t1 + W, limit := 3 },
       mapSet (mapSet store ip ⟨1, t1⟩) ip ⟨2, t1⟩) := by
    simp [TestRateLimiter.consume, g1, hW2]
  rw [e2]
  have g2 : mapGet (mapSet (mapSet store ip (⟨1, t1⟩ : RateEntry)) ip (⟨2, t1⟩ : RateEntry)) ip
      = some ⟨2, t1⟩ := mapGet_mapSet_self ..
  have e3 : TestRateLimiter.consume ⟨3, W⟩
      (mapSet (mapSet store ip ⟨1, t1⟩) ip ⟨2, t1⟩) t3 ip =
      ({ allowed := true, remaining := 0, resetAt := t1 + W, limit := 3 },
       mapSet (mapSet (mapSet store ip ⟨1, t1⟩) ip ⟨2, t1⟩) ip ⟨3, t1⟩) := by
    simp [TestRateLimiter.consume, g2, hW3]
  rw [e3]
  have g3 : mapGet (mapSet (mapSet (mapSet store ip (⟨1, t1⟩ : RateEntry)) ip
      (⟨2, t1⟩ : RateEntry)) ip (⟨3, t1⟩ : RateEntry)) ip = some ⟨3, t1⟩ :=
    mapGet_mapSet_self ..
  have e4 : TestRateLimiter.consume ⟨3, W⟩
      (mapSet (mapSet (mapSet store ip ⟨1, t1⟩) ip ⟨2, t1⟩) ip ⟨3, t1⟩) t4 ip =
      ({ allowed := false, remaining := 0, resetAt := t1 + W, limit := 3 },
       mapSet (mapSet (mapSet (mapSet store ip ⟨1, t1⟩) ip ⟨2, t1⟩) ip ⟨3, t1⟩) ip
         ⟨4, t1⟩) := by
    simp [TestRateLimiter.consume, g3, hW4]
  rw [e4]
  have g4 : mapGet (mapSet (mapSet (mapSet (mapSet store ip (⟨1, t1⟩ : RateEntry)) ip
      (⟨2, t1⟩ : RateEntry)) ip (⟨3, t1⟩ : RateEntry)) ip (⟨4, t1⟩ : RateEntry)) ip
      = some ⟨4, t1⟩ := mapGet_mapSet_self ..
  have e5 : TestRateLimiter.consume ⟨3, W⟩
      (mapSet (mapSet (mapSet (mapSet store ip ⟨1, t1⟩) ip ⟨2, t1⟩) ip ⟨3, t1⟩) ip
        ⟨4, t1⟩) t5 ip =
      ({ allowed := true, remaining := 2, resetAt := t5 + W, limit := 3 },
       mapSet (mapSet (mapSet (mapSet (mapSet store ip ⟨1, t1⟩) ip ⟨2, t1⟩) ip ⟨3, t1⟩)
         ip ⟨4, t1⟩) ip ⟨1, t5⟩) := by
    simp [TestRateLimiter.consume, g4, h5]
  rw [e5]
  refine ⟨rfl, rfl, rfl, rfl, rfl, by norm_num, mapGet_mapSet_self ..⟩

/-- C1 witness: the scenario evaluated at concrete times. -/
theorem admission_window_correctness_witness :
    (mapGet ([] : RateStore) "a" = none ∧ (1 : Int) - 0 < 10 ∧ (2 : Int) - 0 < 10 ∧
      (3 : Int) - 0 < 10 ∧ (10 : Int) ≤ 10 - 0) ∧
    (∃ r1 r2 r3 r4 r5 : RateLimitResult × RateStore,
      r1 = TestRateLimiter.consume ⟨3, 10⟩ ([] : RateStore) 0 "a" ∧
      r2 = TestRateLimiter.consume ⟨3, 10⟩ r1.2 1 "a" ∧
      r3 = TestRateLimiter.consume ⟨3, 10⟩ r2.2 2 "a" ∧
      r4 = TestRateLimiter.consume ⟨3, 10⟩ r3.2 3 "a" ∧
      r5 = TestRateLimiter.consume ⟨3, 10⟩ r4.2 10 "a" ∧
      r1.1.allowed = true ∧ r2.1.allowed = true ∧ r3.1.allowed = true ∧
      r4.1.allowed = false ∧
      r5.1.allowed = true ∧ r5.1.remaining = 3 - 1 ∧
      mapGet r5.2 "a" = some ⟨1, 10⟩) :=
  ⟨by norm_num [mapGet],
    admission_window_correctness [] "a" 10 0 1 2 3 10 rfl (by norm_num) (by norm_num)
      (by norm_num) (by norm_num)⟩

/-- C3 counterexample: four unguarded consume calls at time 0 under quota 3
leave a still-valid entry (age 0, window 10) whose count is 4 > 3, so the
stored count does exceed the configured quota while the entry is valid. -/
theorem admission_entry_invariant_cex :
    mapGet (TestRateLimiter.consume ⟨3, 10⟩
      (TestRateLimiter.consume ⟨3, 10⟩
        (TestRateLimiter.consume ⟨3, 10⟩
          (TestRateLimiter.consume ⟨3, 10⟩ ([] : RateStore) 0 "a").2 0 "a").2 0 "a").2
      0 "a").2 "a" = some ⟨4, 0⟩ ∧ (3 : Int) < 4 ∧ (0 : Int) - 0 < 10 := by
  refine ⟨?_, by norm_num, by norm_num⟩
  decide

/-- Operations an orchestrator can issue against the admission controller. -/
inductive AdmissionOp
  | checkOp (ip : String)
  | consumeOp (ip : String)

/-- Run a timed sequence of operations under the orchestrator discipline:
a consume is issued only when a check at the same instant reports allowed. -/
def runGuarded (cfg : RateLimitConfig) : RateStore → List (Int × AdmissionOp) → RateStore
  | store, [] => store
  | store, (_, .checkOp _) :: rest => runGuarded cfg store rest
  | store, (t, .consumeOp ip) :: rest =>
      if (TestRateLimiter.check cfg store t ip).allowed then
        runGuarded cfg (TestRateLimiter.consume cfg store t ip).2 rest
      else runGuarded cfg store rest

/-- Every stored admission entry has count at most the configured quota. -/
def AdmissionInvariant (cfg : RateLimitConfig) (store : RateStore) : Prop :=
  ∀ ip e, mapGet store ip = some e → e.count ≤ cfg.maxRequestsPerDay

theorem consume_guarded_step (cfg : RateLimitConfig) (store : RateStore) (now : Int)
    (ip : String) (hq : 1 ≤ cfg.maxRequestsPerDay)
    (hinv : AdmissionInvariant cfg store)
    (hall : (TestRateLimiter.check cfg store now ip).allowed = true) :
    AdmissionInvariant cfg (TestRateLimiter.consume cfg store now ip).2 := by
  intro ip' e' hget
  by_cases hip : ip' = ip
  · subst hip
    cases hstore : mapGet store ip' with
    | none =>
        simp only [TestRateLimiter.consume, hstore] at hget
        rw [mapGet_mapSet_self] at hget
        cases hget
        simpa using hq
    | some entry =>
        by_cases hw : cfg.windowMs ≤ now - entry.windowStart
        · simp only [TestRateLimiter.consume, hstore, if_pos hw] at hget
          rw [mapGet_mapSet_self] at hget
          cases hget
          simpa using hq
        · simp only [TestRateLimiter.consume, hstore, if_neg hw] at hget
          rw [mapGet_mapSet_self] at hget
          cases hget
          simp only [TestRateLimiter.check, hstore, if_neg hw] at hall
          have hpos : 0 < max 0 (cfg.maxRequestsPerDay - entry.count) := by
            simpa using hall
          have : 0 < cfg.maxRequestsPerDay - entry.count := by
            rcases lt_max_iff.mp hpos with h | h
            · exact absurd h (lt_irrefl 0)
            · exact h
          simpa using this
  · cases hstore : mapGet store ip with
    | none =>
        simp only [TestRateLimiter.consume, hstore] at hget
        rw [mapGet_mapSet_ne _ _ hip] at hget
        exact hinv ip' e' hget
    | some entry =>
        by_cases hw : cfg.windowMs ≤ now - entry.windowStart
        · simp only [TestRateLimiter.consume, hstore, if_pos hw] at hget
          rw [mapGet_mapSet_ne _ _ hip] at hget
          exact hinv ip' e' hget
        · simp only [TestRateLimiter.consume, hstore, if_neg hw] at hget
          rw [mapGet_mapSet_ne _ _ hip] at hget
          exact hinv ip' e' hget

/-- C3 amended: the unguarded claim fails (see the counterexample), but
under the orchestrator discipline in which every consume is issued only at
an instant where check reports allowed, and with a quota of at least one,
no stored count ever exceeds the quota after any sequence of check and
consume operations, so in particular no valid entry exceeds it. -/
theorem admission_entry_invariant_guarded (cfg : RateLimitConfig)
    (ops : List (Int × AdmissionOp)) (store : RateStore)
    (hq : 1 ≤ cfg.maxRequestsPerDay) (hinv : AdmissionInvariant cfg store) :
    AdmissionInvariant cfg (runGuarded cfg store ops) := by
  induction ops generalizing store with
  | nil => exact hinv
  | cons op rest ih =>
      obtain ⟨t, op⟩ := op
      cases op with
      | checkOp ip => exact ih store hinv
      | consumeOp ip =>
          by_cases hall : (TestRateLimiter.check cfg store t ip).allowed = true
          · rw [runGuarded, if_pos hall]
            exact ih _ (consume_guarded_step cfg store t ip hq hinv hall)
          · rw [runGuarded, if_neg (by simpa using hall)]
            exact ih store hinv

/-- C3 witness: the guarded invariant evaluated on a concrete trace. -/
theorem admission_entry_invariant_guarded_witness :
    (1 : Int) ≤ 3 ∧
    AdmissionInvariant ⟨3, 10⟩ (runGuarded ⟨3, 10⟩ []
      [(0, .consumeOp "a"), (1, .checkOp "a"), (2, .consumeOp "a"),
       (3, .consumeOp "a"), (4, .consumeOp "a"), (5, .consumeOp "a")]) :=
  ⟨by norm_num,
    admission_entry_invariant_guarded ⟨3, 10⟩ _ [] (by norm_num)
      (fun ip e h => by simp [mapGet] at h)⟩

/-- C9: when the entry is absent or its window has expired, consume
unconditionally installs a fresh entry with count 1 and reports allowed with
remaining = limit - 1, with no lower clamp and regardless of the quota. -/
theorem first_consume_bypasses_quota (cfg : RateLimitConfig) (store : RateStore)
    (now : Int) (ip : String)
    (h : mapGet store ip = none ∨
      ∃ e, mapGet store ip = some e ∧ cfg.windowMs ≤ now - e.windowStart) :
    (TestRateLimiter.consume cfg store now ip).1.allowed = true ∧
    (TestRateLimiter.consume cfg store now ip).1.remaining = cfg.maxRequestsPerDay - 1 ∧
    mapGet (TestRateLimiter.consume cfg store now ip).2 ip = some ⟨1, now⟩ := by
  rcases h with h | ⟨e, he, hw⟩
  · refine ⟨by simp [TestRateLimiter.consume, h], by simp [TestRateLimiter.consume, h], ?_⟩
    simp only [TestRateLimiter.consume, h]
    exact mapGet_mapSet_self ..
  · refine ⟨by simp [TestRateLimiter.consume, he, hw],
      by simp [TestRateLimiter.consume, he, hw], ?_⟩
    simp only [TestRateLimiter.consume, he, if_pos hw]
    exact mapGet_mapSet_self ..

/-- C9 witness: with quota 0 the first consume still reports allowed and a
negative remaining of -1. -/
theorem first_consume_bypasses_quota_witness :
    (mapGet ([] : RateStore) "a" = none ∨
      ∃ e, mapGet ([] : RateStore) "a" = some e ∧ (10 : Int) ≤ 0 - e.windowStart) ∧
    (TestRateLimiter.consume ⟨0, 10⟩ ([] : RateStore) 0 "a").1.allowed = true ∧
    (TestRateLimiter.consume ⟨0, 10⟩ ([] : RateStore) 0 "a").1.remaining = -1 ∧
    mapGet (TestRateLimiter.consume ⟨0, 10⟩ ([] : RateStore) 0 "a").2 "a" = some ⟨1, 0⟩ := by
  have h := first_consume_bypasses_quota ⟨0, 10⟩ [] 0 "a" (Or.inl rfl)
  exact ⟨Or.inl rfl, h.1, h.2.1.trans (by norm_num), h.2.2⟩

/-! ### Result cache: key derivation

Embedding of AnalysisCache.generateKey and its djb2-style string hash.
JS char codes are modelled by Unicode scalar values, which agree with
UTF-16 code units on the basic multilingual plane; JS .sort() on the
review-type strings is modelled by insertion sort under the string order,
which any comparison sort realises since the order is total and
antisymmetric. -/

inductive ReviewType
  | solid
  | hygiene
  | unnecessary
  | simplicity
deriving DecidableEq

def ReviewType.toStr : ReviewType → String
  | .solid => "solid"
  | .hygiene => "hygiene"
  | .unnecessary => "unnecessary"
  | .simplicity => "simplicity"

/-- JS default sort comparator on strings: lexicographic by char code. -/
def charListLe : List Char → List Char → Bool
  | [], _ => true
  | _ :: _, [] => false
  | a :: as, b :: bs =>
      if a.toNat < b.toNat then true
      else if b.toNat < a.toNat then false
      else charListLe as bs

def strLe (a b : String) : Bool := charListLe a.data b.data

/-- The string order realised by the JS default sort, as a relation. -/
def strOrd (a b : String) : Prop := strLe a b = true

instance : DecidableRel strOrd := fun a b =>
  inferInstanceAs (Decidable (strLe a b = true))

theorem charListLe_cons_iff (a b : Char) (as bs : List Char) :
    charListLe (a :: as) (b :: bs) = true ↔
      a.toNat < b.toNat ∨ (a.toNat = b.toNat ∧ charListLe as bs = true) := by
  simp only [charListLe]
  by_cases h1 : a.toNat < b.toNat
  · simp [h1]
  · by_cases h2 : b.toNat < a.toNat
    · have hne : ¬ a.toNat = b.toNat := by omega
      simp [h1, h2, hne]
    · have heq : a.toNat = b.toNat := by omega
      simp [h1, h2, heq]

theorem charListLe_total : ∀ as bs, charListLe as bs = true ∨ charListLe bs as = true := by
  intro as
  induction as with
  | nil => intro bs; left; rfl
  | cons a as ih =>
      intro bs
      cases bs with
      | nil => right; rfl
      | cons b bs =>
          rcases Nat.lt_trichotomy a.toNat b.toNat with h | h | h
          · left; rw [charListLe_cons_iff]; exact Or.inl h
          · rcases ih bs with hr | hr
            · left; rw [charListLe_cons_iff]; exact Or.inr ⟨h, hr⟩
            · right; rw [charListLe_cons_iff]; exact Or.inr ⟨h.symm, hr⟩
          · right; rw [charListLe_cons_iff]; exact Or.inl h

theorem charListLe_trans : ∀ as bs cs, charListLe as bs = true →
    charListLe bs cs = true → charListLe as cs = true := by
  intro as
  induction as with
  | nil => intro bs cs h1 h2; rfl
  | cons a as ih =>
      intro bs cs h1 h2
      cases bs with
      | nil => simp [charListLe] at h1
      | cons b bs =>
          cases cs with
          | nil => simp [charListLe] at h2
          | cons c cs =>
              rw [charListLe_cons_iff] at h1 h2 ⊢
              rcases h1 with h1 | ⟨h1e, h1r⟩
              · rcases h2 with h2 | ⟨h2e, _⟩
                · exact Or.inl (lt_trans h1 h2)
                · exact Or.inl (by omega)
              · rcases h2 with h2 | ⟨h2e, h2r⟩
                · exact Or.inl (by omega)
                · exact Or.inr ⟨by omega, ih bs cs h1r h2r⟩

theorem charListLe_antisymm : ∀ as bs, charListLe as bs = true →
    charListLe bs as = true → as = bs := by
  intro as
  induction as with
  | nil =>
      intro bs h1 h2
      cases bs with
      | nil => rfl
      | cons b bs => simp [charListLe] at h2
  | cons a as ih =>
      intro bs h1 h2
      cases bs with
      | nil => simp [charListLe] at h1
      | cons b bs =>
          rw [charListLe_cons_iff] at h1 h2
          rcases h1 with h1 | ⟨h1e, h1r⟩
          · rcases h2 with h2 | ⟨h2e, _⟩
            · omega
            · omega
          · rcases h2 with h2 | ⟨h2e, h2r⟩
            · omega
            · have hchar : a = b := by
                have hn : a.toNat = b.toNat := h1e
                have ha := Char.ofNat_toNat a
                have hb := Char.ofNat_toNat b
                rw [← ha, ← hb, hn]
              rw [hchar, ih bs h1r h2r]

instance : IsTotal String strOrd :=
  ⟨fun a b => charListLe_total a.data b.data⟩

instance : IsTrans String strOrd :=
  ⟨fun a b c h1 h2 => charListLe_trans a.data b.data c.data h1 h2⟩

instance : IsAntisymm String strOrd :=
  ⟨fun a b h1 h2 => by
    have hd := charListLe_antisymm a.data b.data h1 h2
    cases a; cases b; simp only at hd; rw [hd]⟩

/-- One step of the hash loop: hash = ToInt32(hash * 33) xor charCode,
carried on the unsigned 32-bit pattern (exact, since the float64 product
stays below 2^53). -/
def hashStep (h c : Nat) : Nat := ((h * 33) % 4294967296) ^^^ c

/-- AnalysisCache.hashCode: djb2 over the char codes, seed 5381. -/
def hashCode (s : String) : Nat :=
  s.data.foldl (fun h c => hashStep h c.toNat) 5381

def hexDigit (n : Nat) : Char :=
  if n < 10 then Char.ofNat (48 + n) else Char.ofNat (87 + n)

def toHexAux : Nat → Nat → List Char → List Char
  | 0, _, acc => acc
  | fuel + 1, n, acc =>
      if n = 0 then acc else toHexAux fuel (n / 16) (hexDigit (n % 16) :: acc)

/-- JS Number.toString(16) for unsigned 32-bit values; 8 hex digits of fuel
cover every value below 2^32 = 16^8. -/
def toHex (n : Nat) : String :=
  if n = 0 then "0" else String.mk (toHexAux 8 n [])

/-- AnalysisCache.generateKey: hex hash of the code, the language, and the
sorted comma-joined review types (sorted, not deduplicated). -/
def generateKey (code language : String) (reviewTypes : List ReviewType) : String :=
  toHex (hashCode code) ++ ":" ++ language ++ ":" ++
    String.intercalate "," (List.insertionSort strOrd (reviewTypes.map ReviewType.toStr))

/-- C2 amended: generateKey is deterministic and sorts the check-type list
before joining, so any permutation of the same list yields the identical
key; it does not deduplicate (see the counterexample), and the source text
is treated as opaque text: case or whitespace variants yield different
keys. -/
theorem generateKey_normalization :
    (∀ (code lang : String) (l1 l2 : List ReviewType), l1.Perm l2 →
        generateKey code lang l1 = generateKey code lang l2) ∧
    generateKey "const x = 1;" "typescript" [.solid, .hygiene]
      = generateKey "const x = 1;" "typescript" [.hygiene, .solid] ∧
    generateKey "const x = 1;" "typescript" [.solid]
      ≠ generateKey "const X = 1;" "typescript" [.solid] ∧
    generateKey "const x = 1;" "typescript" [.solid]
      ≠ generateKey "const  x = 1;" "typescript" [.solid] := by
  refine ⟨?_, by decide, by decide, by decide⟩
  intro code lang l1 l2 hperm
  unfold generateKey
  have hp : (l1.map ReviewType.toStr).Perm (l2.map ReviewType.toStr) := hperm.map _
  have hs : List.insertionSort strOrd (l1.map ReviewType.toStr)
      = List.insertionSort strOrd (l2.map ReviewType.toStr) :=
    List.eq_of_perm_of_sorted
      (((List.perm_insertionSort strOrd (l1.map ReviewType.toStr)).trans hp).trans
        (List.perm_insertionSort strOrd (l2.map ReviewType.toStr)).symm)
      (List.sorted_insertionSort strOrd (l1.map ReviewType.toStr))
      (List.sorted_insertionSort strOrd (l2.map ReviewType.toStr))
  rw [hs]

/-- C2 witness: the permutation clause evaluated at a concrete permutation. -/
theorem generateKey_normalization_witness :
    ([ReviewType.solid, ReviewType.simplicity].Perm
      [ReviewType.simplicity, ReviewType.solid]) ∧
    generateKey "let y = 2;" "javascript" [ReviewType.solid, ReviewType.simplicity]
      = generateKey "let y = 2;" "javascript" [ReviewType.simplicity, ReviewType.solid] :=
  ⟨by decide,
    generateKey_normalization.1 "let y = 2;" "javascript" _ _ (by decide)⟩

/-- C2 counterexample: a duplicated check type is not deduplicated, so a
list with duplicates of the same set yields a different key. -/
theorem generateKey_dedup_cex :
    generateKey "const x = 1;" "typescript" [ReviewType.solid, ReviewType.solid]
      ≠ generateKey "const x = 1;" "typescript" [ReviewType.solid] := by
  decide

/-! ### Result cache: data model and operations -/

inductive QualityGrade
  | A
  | B
  | C
  | D
  | F
deriving DecidableEq

inductive IssueSeverity
  | critical
  | warning
  | suggestion
deriving DecidableEq

inductive IssueCategory
  | solid
  | hygiene
  | unnecessary
  | complexity
deriving DecidableEq

inductive SOLIDPrinciple
  | SRP
  | OCP
  | LSP
  | ISP
  | DIP
  | other
deriving DecidableEq

inductive ProgrammingLanguage
  | typescript
  | javascript
  | python
  | java
  | csharp
  | go
  | rust
  | cpp
  | auto
deriving DecidableEq

inductive ConfidenceLevel
  | high
  | medium
  | low
deriving DecidableEq

structure CodeIssue where
  line : Int
  severity : IssueSeverity
  category : IssueCategory
  principle : Option SOLIDPrinciple := none
  message : String
  explanation : Option String := none
  suggestion : String
  codeSnippet : Option String := none
deriving DecidableEq

structure IssueMetrics where
  criticalIssues : Int
  warnings : Int
  suggestions : Int
  totalIssues : Int
deriving DecidableEq

/-- Confidence payload; the ConfidenceScore and ConfidenceMetadata
interfaces of the source carry the same fields. -/
structure ConfidenceScore where
  overall : Int
  languageDetection : Int
  issueAccuracy : Int
  factors : List String
  level : ConfidenceLevel
deriving DecidableEq

/-- Analysis metadata; the optional fields are added by the cache. The
cachedAt ISO date string is modelled as the numeric timestamp it renders. -/
structure AnalysisMetadata where
  analysisTimeMs : Int
  modelVersion : String
  isDemoMode : Bool
  linesAnalyzed : Int
  fromCache : Option Bool := none
  cacheHits : Option Int := none
  cachedAt : Option Int := none
deriving DecidableEq

structure AnalysisResult where
  issues : List CodeIssue
  metrics : IssueMetrics
  summary : String
  score : Int
  grade : QualityGrade
  reviewTypes : List ReviewType
  language : ProgrammingLanguage
  timestamp : Int
  confidence : ConfidenceScore
  metadata : AnalysisMetadata
deriving DecidableEq

structure CacheConfig where
  maxEntries : Nat
  ttlMs : Int
deriving DecidableEq

structure CacheEntry where
  result : AnalysisResult
  createdAt : Int
  accessedAt : Int
  hits : Int
deriving DecidableEq

structure AnalysisCacheState where
  cache : List (String × CacheEntry)
  config : CacheConfig
  hitCount : Int
  missCount : Int
deriving DecidableEq

/-- The shallow copy returned on a hit: the stored result with cache-hit
metadata spliced into its metadata object. -/
def cacheAnnotate (r : AnalysisResult) (hits : Int) : AnalysisResult :=
  { r with metadata := { r.metadata with fromCache := some true, cacheHits := some hits } }

/-- The stored form of a result: set splices a cachedAt stamp into the
metadata before storing. -/
def cacheWrap (r : AnalysisResult) (now : Int) : AnalysisResult :=
  { r with metadata := { r.metadata with cachedAt := some now } }

namespace AnalysisCache

/-- AnalysisCache.get: miss on absence; expired entries (age strictly above
the TTL) are deleted and counted as misses; otherwise the access time and
per-entry hit counter are updated and an annotated copy is returned. -/
def get (st : AnalysisCacheState) (now : Int) (code language : String)
    (reviewTypes : List ReviewType) : Option AnalysisResult × AnalysisCacheState :=
  let key := generateKey code language reviewTypes
  match mapGet st.cache key with
  | none => (none, { st with missCount := st.missCount + 1 })
  | some entry =>
      if st.config.ttlMs < now - entry.createdAt then
        (none, { st with cache := mapDelete st.cache key, missCount := st.missCount + 1 })
      else
        (some (cacheAnnotate entry.result (entry.hits + 1)),
         { st with
            cache := mapSet st.cache key
              { entry with accessedAt := now, hits := entry.hits + 1 },
            hitCount := st.hitCount + 1 })

/-- The eviction scan: walk the entries in insertion order keeping the
first entry whose access time is strictly smallest, starting from a null
best (JS starts from Infinity, so the first entry always becomes best). -/
def lruScan : List (String × CacheEntry) → Option (String × Int) → Option (String × Int)
  | [], best => best
  | kv :: rest, best =>
      lruScan rest
        (match best with
         | none => some (kv.1, kv.2.accessedAt)
         | some (bk, bt) =>
             if kv.2.accessedAt < bt then some (kv.1, kv.2.accessedAt) else some (bk, bt))

/-- AnalysisCache.evictLRU: delete the entry selected by the scan. -/
def evictLRU (cache : List (String × CacheEntry)) : List (String × CacheEntry) :=
  match lruScan cache none with
  | none => cache
  | some (k, _) => mapDelete cache k

/-- AnalysisCache.set: evict once when at capacity and the key is new, then
store a fresh entry with both timestamps at now and zero hits. -/
def set (st : AnalysisCacheState) (now : Int) (code language : String)
    (reviewTypes : List ReviewType) (result : AnalysisResult) : AnalysisCacheState :=
  let key := generateKey code language reviewTypes
  let cache1 :=
    if st.config.maxEntries ≤ st.cache.length ∧ mapGet st.cache key = none then
      evictLRU st.cache
    else st.cache
  { st with
      cache := mapSet cache1 key
        { result := cacheWrap result now, createdAt := now, accessedAt := now, hits := 0 } }

theorem set_entry (st : AnalysisCacheState) (now : Int) (code language : String)
    (types : List ReviewType) (result : AnalysisResult) :
    mapGet (set st now code language types result).cache (generateKey code language types)
      = some ⟨cacheWrap result now, now, now, 0⟩ := by
  simp only [set]
  exact mapGet_mapSet_self ..

end AnalysisCache

/-- Concrete result mirroring the createMockResult fixture of the cache
test suite. -/
def mockResult (score : Int) : AnalysisResult :=
  { issues := [],
    metrics := { criticalIssues := 0, warnings := 0, suggestions := 0, totalIssues := 0 },
    summary := "Test summary", score := score, grade := .A, reviewTypes := [.solid],
    language := .typescript, timestamp := 0,
    confidence := { overall := 85, languageDetection := 90, issueAccuracy := 80,
                    factors := [], level := .high },
    metadata := { analysisTimeMs := 100, modelVersion := "test",
                  isDemoMode := false, linesAnalyzed := 10 } }

/-- C4 amended: an entry inserted at time T with TTL D is a hit at every
time now with now - T at most D (the boundary instant T + D included, since
the source expires only when the age strictly exceeds the TTL), and at
every later instant get deletes the entry, records a miss and returns the
miss. -/
theorem ttl_expiration (st : AnalysisCacheState) (T now : Int) (code language : String)
    (types : List ReviewType) (result : AnalysisResult) :
    ∃ st1, st1 = AnalysisCache.set st T code language types result ∧
      (now - T ≤ st.config.ttlMs →
        (AnalysisCache.get st1 now code language types).1
            = some (cacheAnnotate (cacheWrap result T) 1) ∧
        (AnalysisCache.get st1 now code language types).2.hitCount = st.hitCount + 1) ∧
      (st.config.ttlMs < now - T →
        (AnalysisCache.get st1 now code language types).1 = none ∧
        mapGet (AnalysisCache.get st1 now code language types).2.cache
          (generateKey code language types) = none ∧
        (AnalysisCache.get st1 now code language types).2.missCount = st.missCount + 1) := by
  refine ⟨_, rfl, ?_, ?_⟩
  · intro h
    have hcond : ¬ (st.config.ttlMs < now - T) := not_lt.mpr h
    constructor
    · simp [AnalysisCache.get, AnalysisCache.set, mapGet_mapSet_self, hcond]
    · simp [AnalysisCache.get, AnalysisCache.set, mapGet_mapSet_self, hcond]
  · intro h
    refine ⟨?_, ?_, ?_⟩
    · simp [AnalysisCache.get, AnalysisCache.set, mapGet_mapSet_self, h]
    · simp [AnalysisCache.get, AnalysisCache.set, mapGet_mapSet_self, h,
        mapGet_mapDelete_self]
    · simp [AnalysisCache.get, AnalysisCache.set, mapGet_mapSet_self, h]

/-- C4 witness: a concrete hit strictly inside the TTL window. -/
theorem ttl_expiration_witness :
    (5 : Int) - 0 ≤ (10 : Int) ∧
    (AnalysisCache.get
        (AnalysisCache.set ⟨[], ⟨100, 10⟩, 0, 0⟩ 0 "code" "typescript" [ReviewType.solid]
          (mockResult 95)) 5 "code" "typescript" [ReviewType.solid]).1
      = some (cacheAnnotate (cacheWrap (mockResult 95) 0) 1) := by
  obtain ⟨st1, hst1, hhit, hmiss⟩ :=
    ttl_expiration ⟨[], ⟨100, 10⟩, 0, 0⟩ 0 5 "code" "typescript" [ReviewType.solid]
      (mockResult 95)
  exact ⟨by norm_num, hst1 ▸ (hhit (by norm_num)).1⟩

/-- C4 counterexample: at exactly T + TTL the entry is still served as a
hit, contradicting the claim that get misses from T + TTL onward. -/
theorem ttl_expiration_cex :
    (AnalysisCache.get
        (AnalysisCache.set ⟨[], ⟨100, 10⟩, 0, 0⟩ 0 "code" "typescript" [ReviewType.solid]
          (mockResult 95)) 10 "code" "typescript" [ReviewType.solid]).1.isSome = true := by
  decide

/-! ### LRU eviction -/

theorem mapGet_eq_none_iff {α : Type} (m : List (String × α)) (k : String) :
    mapGet m k = none ↔ k ∉ m.map Prod.fst := by
  induction m with
  | nil => simp [mapGet]
  | cons p rest ih =>
      by_cases hp : p.1 = k
      · simp [mapGet, hp]
      · have hp2 : ¬ k = p.1 := fun hh => hp hh.symm
        simp [mapGet, hp, hp2, ih]

theorem AnalysisCache.lruScan_acc_spec (l : List (String × CacheEntry)) :
    ∀ (bk : String) (bt : Int),
      (AnalysisCache.lruScan l (some (bk, bt)) = some (bk, bt) ∧ ∀ p ∈ l, bt ≤ p.2.accessedAt) ∨
      (∃ k t pre e suf, AnalysisCache.lruScan l (some (bk, bt)) = some (k, t) ∧
        l = pre ++ (k, e) :: suf ∧ e.accessedAt = t ∧ t < bt ∧
        (∀ p ∈ l, t ≤ p.2.accessedAt) ∧ (∀ p ∈ pre, t < p.2.accessedAt)) := by
  induction l with
  | nil => intro bk bt; exact Or.inl ⟨rfl, by simp⟩
  | cons kv rest ih =>
      intro bk bt
      by_cases hlt : kv.2.accessedAt < bt
      · have hstep : AnalysisCache.lruScan (kv :: rest) (some (bk, bt))
            = AnalysisCache.lruScan rest (some (kv.1, kv.2.accessedAt)) := by
          simp [AnalysisCache.lruScan, hlt]
        rcases ih kv.1 kv.2.accessedAt with ⟨heq, hall⟩ |
          ⟨k, t, pre, e, suf, heq, hsplit, hacc, hlt2, hall, hpre⟩
        · refine Or.inr ⟨kv.1, kv.2.accessedAt, [], kv.2, rest,
            by rw [hstep]; exact heq, by simp, rfl, hlt, ?_, by simp⟩
          intro p hp
          rcases List.mem_cons.mp hp with hh | hh
          · rw [hh]
          · exact hall p hh
        · refine Or.inr ⟨k, t, kv :: pre, e, suf,
            by rw [hstep]; exact heq, by rw [hsplit]; simp, hacc, lt_trans hlt2 hlt, ?_, ?_⟩
          · intro p hp
            rcases List.mem_cons.mp hp with hh | hh
            · rw [hh]; exact le_of_lt hlt2
            · exact hall p hh
          · intro p hp
            rcases List.mem_cons.mp hp with hh | hh
            · rw [hh]; exact hlt2
            · exact hpre p hh
      · have hstep : AnalysisCache.lruScan (kv :: rest) (some (bk, bt))
            = AnalysisCache.lruScan rest (some (bk, bt)) := by
          simp [AnalysisCache.lruScan, hlt]
        rcases ih bk bt with ⟨heq, hall⟩ |
          ⟨k, t, pre, e, suf, heq, hsplit, hacc, hlt2, hall, hpre⟩
        · refine Or.inl ⟨by rw [hstep]; exact heq, ?_⟩
          intro p hp
          rcases List.mem_cons.mp hp with hh | hh
          · rw [hh]; exact not_lt.mp hlt
          · exact hall p hh
        · have hkvt : t < kv.2.accessedAt := lt_of_lt_of_le hlt2 (not_lt.mp hlt)
          refine Or.inr ⟨k, t, kv :: pre, e, suf,
            by rw [hstep]; exact heq, by rw [hsplit]; simp, hacc, hlt2, ?_, ?_⟩
          · intro p hp
            rcases List.mem_cons.mp hp with hh | hh
            · rw [hh]; exact le_of_lt hkvt
            · exact hall p hh
          · intro p hp
            rcases List.mem_cons.mp hp with hh | hh
            · rw [hh]; exact hkvt
            · exact hpre p hh

theorem AnalysisCache.lruScan_none_spec (l : List (String × CacheEntry)) (hne : l ≠ []) :
    ∃ k t pre e suf, AnalysisCache.lruScan l none = some (k, t) ∧ l = pre ++ (k, e) :: suf ∧
      e.accessedAt = t ∧ (∀ p ∈ l, t ≤ p.2.accessedAt) ∧
      (∀ p ∈ pre, t < p.2.accessedAt) := by
  cases l with
  | nil => exact absurd rfl hne
  | cons kv rest =>
      have hstep : AnalysisCache.lruScan (kv :: rest) none
          = AnalysisCache.lruScan rest (some (kv.1, kv.2.accessedAt)) := by
        simp [AnalysisCache.lruScan]
      rcases AnalysisCache.lruScan_acc_spec rest kv.1 kv.2.accessedAt with ⟨heq, hall⟩ |
        ⟨k, t, pre, e, suf, heq, hsplit, hacc, hlt, hall, hpre⟩
      · refine ⟨kv.1, kv.2.accessedAt, [], kv.2, rest,
          by rw [hstep]; exact heq, by simp, rfl, ?_, by simp⟩
        intro p hp
        rcases List.mem_cons.mp hp with hh | hh
        · rw [hh]
        · exact hall p hh
      · refine ⟨k, t, kv :: pre, e, suf,
          by rw [hstep]; exact heq, by rw [hsplit]; simp, hacc, ?_, ?_⟩
        · intro p hp
          rcases List.mem_cons.mp hp with hh | hh
          · rw [hh]; exact le_of_lt hlt
          · exact hall p hh
        · intro p hp
          rcases List.mem_cons.mp hp with hh | hh
          · rw [hh]; exact hlt
          · exact hpre p hh

/-- Capacity-3 scenario: three inserts at times 0, 5, 10. -/
def lruSt3 : AnalysisCacheState :=
  AnalysisCache.set
    (AnalysisCache.set
      (AnalysisCache.set ⟨[], ⟨3, 1000⟩, 0, 0⟩ 0 "code1" "typescript" [.solid]
        (mockResult 90))
      5 "code2" "typescript" [.solid] (mockResult 91))
    10 "code3" "typescript" [.solid] (mockResult 92)

/-- The scenario after the first key is touched by get at time 15. -/
def lruSt4 : AnalysisCacheState :=
  (AnalysisCache.get lruSt3 15 "code1" "typescript" [.solid]).2

/-- The scenario after a fourth distinct insert at time 20. -/
def lruSt5 : AnalysisCacheState :=
  AnalysisCache.set lruSt4 20 "code4" "typescript" [.solid] (mockResult 93)

/-- C5: when set is called with the cache at capacity and a new key, exactly
one entry is evicted before insertion: the one whose access time is minimal,
ties broken by earliest insertion position; the new entry is stored with both
timestamps at now and zero per-entry hits, and the cache size is unchanged.
In the concrete capacity-3 scenario, the entry touched by get just before
the fourth insert survives and the stale one is evicted. -/
theorem lru_eviction :
    (∀ (st : AnalysisCacheState) (now : Int) (code lang : String)
        (types : List ReviewType) (result : AnalysisResult),
      st.config.maxEntries ≤ st.cache.length →
      st.cache ≠ [] →
      (st.cache.map Prod.fst).Nodup →
      mapGet st.cache (generateKey code lang types) = none →
      ∃ k t e pre suf,
        AnalysisCache.lruScan st.cache none = some (k, t) ∧
        st.cache = pre ++ (k, e) :: suf ∧ e.accessedAt = t ∧
        (∀ p ∈ st.cache, t ≤ p.2.accessedAt) ∧
        (∀ p ∈ pre, t < p.2.accessedAt) ∧
        (AnalysisCache.set st now code lang types result).cache
          = mapSet (mapDelete st.cache k) (generateKey code lang types)
              ⟨cacheWrap result now, now, now, 0⟩ ∧
        mapGet (AnalysisCache.set st now code lang types result).cache
            (generateKey code lang types)
          = some ⟨cacheWrap result now, now, now, 0⟩ ∧
        (AnalysisCache.set st now code lang types result).cache.length
          = st.cache.length) ∧
    ((mapGet lruSt5.cache (generateKey "code1" "typescript" [.solid])).isSome = true ∧
      mapGet lruSt5.cache (generateKey "code2" "typescript" [.solid]) = none ∧
      (mapGet lruSt5.cache (generateKey "code4" "typescript" [.solid])).isSome = true ∧
      lruSt5.cache.length = 3) := by
  constructor
  · intro st now code lang types result hcap hne hnd habs
    obtain ⟨k, t, pre, e, suf, hscan, hsplit, hacc, hall, hpre⟩ :=
      AnalysisCache.lruScan_none_spec st.cache hne
    have hkmem : (k, e) ∈ st.cache := by rw [hsplit]; simp
    have hknotkey : k ≠ generateKey code lang types := by
      intro hkk
      have hmemkey : generateKey code lang types ∈ st.cache.map Prod.fst := by
        rw [← hkk]
        exact List.mem_map.mpr ⟨(k, e), hkmem, rfl⟩
      exact (mapGet_eq_none_iff st.cache _).mp habs hmemkey
    have hevict : AnalysisCache.evictLRU st.cache = mapDelete st.cache k := by
      simp [AnalysisCache.evictLRU, hscan]
    have hsetcache : (AnalysisCache.set st now code lang types result).cache
        = mapSet (mapDelete st.cache k) (generateKey code lang types)
            ⟨cacheWrap result now, now, now, 0⟩ := by
      simp [AnalysisCache.set, hcap, habs, hevict]
    refine ⟨k, t, e, pre, suf, hscan, hsplit, hacc, hall, hpre, hsetcache, ?_, ?_⟩
    · rw [hsetcache]
      exact mapGet_mapSet_self ..
    · rw [hsetcache]
      have hdelnone : mapGet (mapDelete st.cache k) (generateKey code lang types)
          = none := by
        rw [mapGet_mapDelete_ne st.cache (Ne.symm hknotkey)]
        exact habs
      rw [mapSet_length_absent _ _ _ hdelnone]
      have hdl := mapDelete_length_mem_nodup st.cache k e hnd hkmem
      omega
  · refine ⟨by decide, by decide, by decide, by decide⟩

/-- C5 witness: the general clause applied to the concrete scenario state. -/
theorem lru_eviction_witness :
    (lruSt4.config.maxEntries ≤ lruSt4.cache.length ∧ lruSt4.cache ≠ [] ∧
      (lruSt4.cache.map Prod.fst).Nodup ∧
      mapGet lruSt4.cache (generateKey "code4" "typescript" [.solid]) = none) ∧
    (∃ k t e pre suf,
      AnalysisCache.lruScan lruSt4.cache none = some (k, t) ∧
      lruSt4.cache = pre ++ (k, e) :: suf ∧ e.accessedAt = t ∧
      (∀ p ∈ lruSt4.cache, t ≤ p.2.accessedAt) ∧
      (∀ p ∈ pre, t < p.2.accessedAt) ∧
      (AnalysisCache.set lruSt4 20 "code4" "typescript" [.solid]
          (mockResult 93)).cache
        = mapSet (mapDelete lruSt4.cache k)
            (generateKey "code4" "typescript" [.solid])
            ⟨cacheWrap (mockResult 93) 20, 20, 20, 0⟩ ∧
      mapGet (AnalysisCache.set lruSt4 20 "code4" "typescript" [.solid]
          (mockResult 93)).cache (generateKey "code4" "typescript" [.solid])
        = some ⟨cacheWrap (mockResult 93) 20, 20, 20, 0⟩ ∧
      (AnalysisCache.set lruSt4 20 "code4" "typescript" [.solid]
          (mockResult 93)).cache.length = lruSt4.cache.length) :=
  ⟨⟨by decide, by decide, by decide, by decide⟩,
    lru_eviction.1 lruSt4 20 "code4" "typescript" [.solid] (mockResult 93)
      (by decide) (by decide) (by decide) (by decide)⟩

/-! ### Cache hit lifecycle -/

/-- Iterate get over a list of access times. -/
def runGets (code lang : String) (types : List ReviewType) :
    AnalysisCacheState → List Int → AnalysisCacheState
  | st, [] => st
  | st, t :: ts => runGets code lang types (AnalysisCache.get st t code lang types).2 ts

theorem runGets_entry (code lang : String) (types : List ReviewType) :
    ∀ (times : List Int) (st : AnalysisCacheState) (res : AnalysisResult) (T a h : Int),
      mapGet st.cache (generateKey code lang types) = some ⟨res, T, a, h⟩ →
      (∀ u ∈ times, u - T ≤ st.config.ttlMs) →
      ∃ a2, mapGet (runGets code lang types st times).cache (generateKey code lang types)
          = some ⟨res, T, a2, h + times.length⟩ ∧
        (runGets code lang types st times).config = st.config := by
  intro times
  induction times with
  | nil =>
      intro st res T a h hget htl
      exact ⟨a, by simpa using hget, rfl⟩
  | cons u ts ih =>
      intro st res T a h hget htl
      have hcond : ¬ (st.config.ttlMs < u - T) := not_lt.mpr (htl u (by simp))
      have hstep : (AnalysisCache.get st u code lang types).2 =
          { st with
              cache := mapSet st.cache (generateKey code lang types) ⟨res, T, u, h + 1⟩,
              hitCount := st.hitCount + 1 } := by
        simp [AnalysisCache.get, hget, hcond]
      obtain ⟨a2, hfin, hcfg⟩ := ih (AnalysisCache.get st u code lang types).2 res T u (h + 1)
        (by rw [hstep]; exact mapGet_mapSet_self ..)
        (fun v hv => by rw [hstep]; exact htl v (by simp [hv]))
      refine ⟨a2, ?_, ?_⟩
      · simp only [runGets]
        rw [hfin]
        have harith : h + 1 + (ts.length : Int) = h + ((u :: ts).length : Int) := by
          simp only [List.length_cons]
          push_cast
          ring
        rw [harith]
      · simp only [runGets]
        rw [hcfg, hstep]

/-- C6: cache hit lifecycle. A get whose key is absent records a miss; after
set at time T followed by any number of in-TTL gets, the next in-TTL get
returns a copy of the stored result annotated as served from cache with the
per-entry hit counter at one more than the number of prior hits (so the
counter runs 1, 2, 3, ...), while the stored entry keeps the original
result unmutated. -/
theorem cache_hit_lifecycle :
    (∀ (st : AnalysisCacheState) (now : Int) (code lang : String) (types : List ReviewType),
      mapGet st.cache (generateKey code lang types) = none →
      (AnalysisCache.get st now code lang types).1 = none ∧
      (AnalysisCache.get st now code lang types).2.missCount = st.missCount + 1) ∧
    (∀ (st : AnalysisCacheState) (T : Int) (code lang : String) (types : List ReviewType)
        (result : AnalysisResult) (times : List Int) (t : Int),
      (∀ u ∈ times, u - T ≤ st.config.ttlMs) → t - T ≤ st.config.ttlMs →
      ∃ st2, st2 = runGets code lang types
          (AnalysisCache.set st T code lang types result) times ∧
        (AnalysisCache.get st2 t code lang types).1
          = some (cacheAnnotate (cacheWrap result T) (times.length + 1)) ∧
        (mapGet (AnalysisCache.get st2 t code lang types).2.cache
            (generateKey code lang types)).map (fun e => e.result)
          = some (cacheWrap result T)) := by
  constructor
  · intro st now code lang types habs
    constructor
    · simp [AnalysisCache.get, habs]
    · simp [AnalysisCache.get, habs]
  · intro st T code lang types result times t htimes ht
    have hset := AnalysisCache.set_entry st T code lang types result
    obtain ⟨a2, hentry, hcfg⟩ := runGets_entry code lang types times
      (AnalysisCache.set st T code lang types result) (cacheWrap result T) T T 0
      hset htimes
    have hcond : ¬ ((runGets code lang types
        (AnalysisCache.set st T code lang types result) times).config.ttlMs < t - T) := by
      rw [hcfg]
      exact not_lt.mpr ht
    refine ⟨_, rfl, ?_, ?_⟩
    · simp [AnalysisCache.get, hentry, hcond]
    · simp [AnalysisCache.get, hentry, hcond, mapGet_mapSet_self]

/-- C6 witness: the lifecycle evaluated on a concrete empty cache, a set,
two hits, and a third hit. -/
theorem cache_hit_lifecycle_witness :
    (mapGet (⟨[], ⟨100, 10⟩, 0, 0⟩ : AnalysisCacheState).cache
        (generateKey "c" "typescript" [.solid]) = none) ∧
    ((AnalysisCache.get (⟨[], ⟨100, 10⟩, 0, 0⟩ : AnalysisCacheState) 0 "c" "typescript"
        [.solid]).1 = none ∧
      (AnalysisCache.get (⟨[], ⟨100, 10⟩, 0, 0⟩ : AnalysisCacheState) 0 "c" "typescript"
          [.solid]).2.missCount
        = (⟨[], ⟨100, 10⟩, 0, 0⟩ : AnalysisCacheState).missCount + 1) ∧
    ((∀ u ∈ [(1 : Int), 2],
        u - 0 ≤ (⟨[], ⟨100, 10⟩, 0, 0⟩ : AnalysisCacheState).config.ttlMs) ∧
      (3 : Int) - 0 ≤ (⟨[], ⟨100, 10⟩, 0, 0⟩ : AnalysisCacheState).config.ttlMs) ∧
    (∃ st2, st2 = runGets "c" "typescript" [.solid]
        (AnalysisCache.set (⟨[], ⟨100, 10⟩, 0, 0⟩ : AnalysisCacheState) 0 "c" "typescript"
          [.solid] (mockResult 88)) [1, 2] ∧
      (AnalysisCache.get st2 3 "c" "typescript" [.solid]).1
        = some (cacheAnnotate (cacheWrap (mockResult 88) 0) ([(1 : Int), 2].length + 1)) ∧
      (mapGet (AnalysisCache.get st2 3 "c" "typescript" [.solid]).2.cache
          (generateKey "c" "typescript" [.solid])).map (fun e => e.result)
        = some (cacheWrap (mockResult 88) 0)) := by
  refine ⟨rfl, cache_hit_lifecycle.1 _ 0 "c" "typescript" [.solid] rfl, ⟨?_, ?_⟩,
    cache_hit_lifecycle.2 _ 0 "c" "typescript" [.solid] (mockResult 88) [1, 2] 3 ?_ ?_⟩
  · decide
  · norm_num
  · decide
  · norm_num

/-! ### Confidence scorer

Embedding of calculateConfidence. The regex tests of the source are plain
substring or word-boundary searches over the text, modelled directly on the
char list. Math.round over float64 is modelled by exact rationals with
round half up; on every reachable pair of sub-scores the float64 evaluation
agrees with the exact one (checked exhaustively over the 168 reachable
pairs, sub-scores 30/75/100 crossed with 45..100). -/

def listStartsWith : List Char → List Char → Bool
  | _, [] => true
  | [], _ :: _ => false
  | a :: as, b :: bs => a = b && listStartsWith as bs

def listContainsSub : List Char → List Char → Bool
  | [], pat => pat.isEmpty
  | a :: rest, pat => listStartsWith (a :: rest) pat || listContainsSub rest pat

/-- Plain substring test (regex literals without metacharacters). -/
def strContains (s pat : String) : Bool := listContainsSub s.data pat.data

/-- JS regex word characters. -/
def isWordChar (c : Char) : Bool := c.isAlphanum || c = '_'

/-- The pattern occurs here with word boundaries on both sides. -/
def wordAtHere (prev : Option Char) (s : List Char) (pat : List Char) : Bool :=
  listStartsWith s pat &&
    (match prev with
     | none => true
     | some c => !isWordChar c) &&
    (match (s.drop pat.length).head? with
     | none => true
     | some c => !isWordChar c)

/-- Word-bounded search, carrying the previous character. -/
def wordSearch (pat : List Char) : Option Char → List Char → Bool
  | prev, [] => wordAtHere prev [] pat
  | prev, c :: rest => wordAtHere prev (c :: rest) pat || wordSearch pat (some c) rest

/-- JS regex whitespace (the ASCII forms). -/
def isJsSpace (c : Char) : Bool :=
  c = ' ' || c = '\t' || c = '\n' || c = '\r' || c = '\x0B' || c = '\x0C'

/-- A colon, then whitespace, then the word any with a boundary after. -/
def anyTypeAt : List Char → Bool
  | ':' :: rest =>
      let r2 := rest.dropWhile isJsSpace
      listStartsWith r2 "any".data &&
        (match (r2.drop 3).head? with
         | none => true
         | some c => !isWordChar c)
  | _ => false

def hasAnyTypeAux : List Char → Bool
  | [] => false
  | c :: rest => anyTypeAt (c :: rest) || hasAnyTypeAux rest

def toLowerStr (s : String) : String := String.mk (s.data.map Char.toLower)

/-- Step 1: language detection sub-score. -/
def languageDetectionScore (detected specified : ProgrammingLanguage) : Int :=
  if specified = .auto then (if detected = .auto then 30 else 75) else 100

/-- Step 1: the factor pushed alongside the language sub-score. -/
def languageDetectionFactors (detected specified : ProgrammingLanguage) : List String :=
  if specified = .auto then
    (if detected = .auto then ["Unable to detect programming language"]
     else ["Auto-detected language"])
  else []

/-- Step 2: non-blank line count of the analyzed text. -/
def nonBlankLineCount (code : String) : Nat :=
  ((code.splitOn "\n").filter (fun l => 0 < l.trim.length)).length

/-- Step 3: the structure regex, an alternation of plain literals. -/
def hasStructure (code : String) : Bool :=
  strContains code "class " || strContains code "function " ||
    strContains code "interface " || strContains code "type " ||
    strContains code "const " || strContains code "let "

def hasConsoleLog (code : String) : Bool := strContains code "console.log"

def hasVarKeyword (code : String) : Bool := wordSearch "var".data none code.data

def hasAnyType (code : String) : Bool := hasAnyTypeAux code.data

/-- Step 5: an obvious issue class was reported among the findings. -/
def obviousIssuesDetected (issues : List CodeIssue) : Bool :=
  issues.any fun i =>
    strContains (toLowerStr i.message) "console.log" ||
      strContains (toLowerStr i.message) "var" ||
      strContains (toLowerStr i.message) "any"

/-- Steps 2-5: the reliability sub-score before the final clamp. -/
def issueAccuracyScore (code : String) (issues : List CodeIssue) (demo : Bool) : Int :=
  let acc1 : Int := if nonBlankLineCount code < 10 then 100 - 10 else 100
  let acc2 : Int := if 300 < nonBlankLineCount code then acc1 - 10 else acc1
  let acc3 : Int := if hasStructure code then acc2 else acc2 - 15
  let acc4 : Int := if demo then acc3 - 20 else acc3
  if (hasConsoleLog code || hasVarKeyword code || hasAnyType code)
      && obviousIssuesDetected issues && !demo then
    min 100 (acc4 + 10)
  else acc4

/-- Math.round with ties toward positive infinity, over exact rationals. -/
def jsRound (q : ℚ) : Int := ⌊q + 1 / 2⌋

/-- Step 6: the rounded 0.3/0.7 blend. -/
def overallScore (code : String) (detected specified : ProgrammingLanguage)
    (issues : List CodeIssue) (demo : Bool) : Int :=
  jsRound ((languageDetectionScore detected specified : ℚ) * (3 / 10)
    + (issueAccuracyScore code issues demo : ℚ) * (7 / 10))

/-- Steps 1-4: the factors pushed in evaluation order. -/
def confidenceFactorsBase (code : String) (detected specified : ProgrammingLanguage)
    (demo : Bool) : List String :=
  let f0 := languageDetectionFactors detected specified
  let f1 := if nonBlankLineCount code < 10 then f0 ++ ["Very short code snippet"] else f0
  let f2 := if 300 < nonBlankLineCount code then
      f1 ++ ["Large code size may affect completeness"] else f1
  let f3 := if hasStructure code then f2 else f2 ++ ["Code lacks clear structure"]
  if demo then f3 ++ ["Demo mode (pattern-based detection only)"] else f3

/-- Step 8: the two positive factors prepended at the end. The level used
here is recomputed from the overall score exactly as in the main function. -/
def confidenceFactorsFinal (code : String) (detected specified : ProgrammingLanguage)
    (issues : List CodeIssue) (demo : Bool) : List String :=
  let overall := overallScore code detected specified issues demo
  let level : ConfidenceLevel :=
    if 75 ≤ overall then .high else if 50 ≤ overall then .medium else .low
  let f5 := confidenceFactorsBase code detected specified demo
  let f6 := if level = .high ∧ demo = false then
      "AI-powered analysis with Claude 4 Sonnet" :: f5 else f5
  if 10 ≤ nonBlankLineCount code ∧ nonBlankLineCount code ≤ 300 ∧ hasStructure code = true then
    (if (f6.any fun f => strContains f "short" || strContains f "Large") = false then
      "Well-structured code of appropriate length" :: f6
    else f6)
  else f6

/-- calculateConfidence: assemble the clamped scores, level and factors. -/
def calculateConfidence (code : String)
    (detectedLanguage specifiedLanguage : ProgrammingLanguage)
    (issues : List CodeIssue) (isDemoMode : Bool) : ConfidenceScore :=
  let langScore := languageDetectionScore detectedLanguage specifiedLanguage
  let acc := issueAccuracyScore code issues isDemoMode
  let overall := overallScore code detectedLanguage specifiedLanguage issues isDemoMode
  let level : ConfidenceLevel :=
    if 75 ≤ overall then .high else if 50 ≤ overall then .medium else .low
  { overall := max 0 (min 100 overall),
    languageDetection := max 0 (min 100 langScore),
    issueAccuracy := max 0 (min 100 acc),
    factors := confidenceFactorsFinal code detectedLanguage specifiedLanguage issues isDemoMode,
    level := level }

theorem languageDetectionScore_cases (detected specified : ProgrammingLanguage) :
    languageDetectionScore detected specified = 30 ∨
      languageDetectionScore detected specified = 75 ∨
      languageDetectionScore detected specified = 100 := by
  unfold languageDetectionScore
  split_ifs <;> simp

theorem issueAccuracyScore_bounds (code : String) (issues : List CodeIssue) (demo : Bool) :
    45 ≤ issueAccuracyScore code issues demo ∧ issueAccuracyScore code issues demo ≤ 100 := by
  simp only [issueAccuracyScore]
  split_ifs <;> norm_num [min_def]

theorem jsRound_blend_bounds (L A : ℚ) (hL1 : 30 ≤ L) (hL2 : L ≤ 100)
    (hA1 : 45 ≤ A) (hA2 : A ≤ 100) :
    41 ≤ jsRound (L * (3 / 10) + A * (7 / 10)) ∧
      jsRound (L * (3 / 10) + A * (7 / 10)) ≤ 100 := by
  unfold jsRound
  constructor
  · apply Int.le_floor.mpr
    push_cast
    linarith
  · have hlt : L * (3 / 10) + A * (7 / 10) + 1 / 2 < ((101 : Int) : ℚ) := by
      push_cast
      linarith
    have hfl := Int.floor_lt.mpr hlt
    omega

theorem overallScore_bounds (code : String) (detected specified : ProgrammingLanguage)
    (issues : List CodeIssue) (demo : Bool) :
    41 ≤ overallScore code detected specified issues demo ∧
      overallScore code detected specified issues demo ≤ 100 := by
  have hL := languageDetectionScore_cases detected specified
  have hLb : 30 ≤ languageDetectionScore detected specified ∧
      languageDetectionScore detected specified ≤ 100 := by
    rcases hL with h | h | h <;> rw [h] <;> norm_num
  have hA := issueAccuracyScore_bounds code issues demo
  unfold overallScore
  exact jsRound_blend_bounds _ _ (by exact_mod_cast hLb.1) (by exact_mod_cast hLb.2)
    (by exact_mod_cast hA.1) (by exact_mod_cast hA.2)

/-- C7: the returned overall equals the rounded 0.3/0.7 blend of the two
returned sub-scores clamped to [0,100]; the level is high at 75 and above,
medium at 50 and above, low otherwise, judged on the returned overall; and
the overall always lies in [0,100] for every input. The embedding is a
total function, matching the requirement that the source never throws. -/
theorem confidence_overall_level_bounds (code : String)
    (detected specified : ProgrammingLanguage) (issues : List CodeIssue) (demo : Bool) :
    (calculateConfidence code detected specified issues demo).overall
      = max 0 (min 100 (jsRound
          (((calculateConfidence code detected specified issues demo).languageDetection : ℚ)
              * (3 / 10)
            + ((calculateConfidence code detected specified issues demo).issueAccuracy : ℚ)
              * (7 / 10)))) ∧
    (calculateConfidence code detected specified issues demo).level
      = (if 75 ≤ (calculateConfidence code detected specified issues demo).overall
         then ConfidenceLevel.high
         else if 50 ≤ (calculateConfidence code detected specified issues demo).overall
         then ConfidenceLevel.medium
         else ConfidenceLevel.low) ∧
    0 ≤ (calculateConfidence code detected specified issues demo).overall ∧
    (calculateConfidence code detected specified issues demo).overall ≤ 100 := by
  have hL := languageDetectionScore_cases detected specified
  have hA := issueAccuracyScore_bounds code issues demo
  have hO := overallScore_bounds code detected specified issues demo
  have hov : (calculateConfidence code detected specified issues demo).overall
      = max 0 (min 100 (overallScore code detected specified issues demo)) := rfl
  have hld : (calculateConfidence code detected specified issues demo).languageDetection
      = max 0 (min 100 (languageDetectionScore detected specified)) := rfl
  have hia : (calculateConfidence code detected specified issues demo).issueAccuracy
      = max 0 (min 100 (issueAccuracyScore code issues demo)) := rfl
  have hlv : (calculateConfidence code detected specified issues demo).level
      = (if 75 ≤ overallScore code detected specified issues demo then ConfidenceLevel.high
         else if 50 ≤ overallScore code detected specified issues demo then
           ConfidenceLevel.medium
         else ConfidenceLevel.low) := rfl
  have hovid : max 0 (min 100 (overallScore code detected specified issues demo))
      = overallScore code detected specified issues demo := by
    rw [min_eq_right hO.2, max_eq_right (by linarith [hO.1])]
  have hldid : max 0 (min 100 (languageDetectionScore detected specified))
      = languageDetectionScore detected specified := by
    rcases hL with h | h | h <;> rw [h] <;> decide
  have hiaid : max 0 (min 100 (issueAccuracyScore code issues demo))
      = issueAccuracyScore code issues demo := by
    rw [min_eq_right hA.2, max_eq_right (by linarith [hA.1])]
  have hOdef : overallScore code detected specified issues demo
      = jsRound ((languageDetectionScore detected specified : ℚ) * (3 / 10)
          + (issueAccuracyScore code issues demo : ℚ) * (7 / 10)) := rfl
  refine ⟨?_, ?_, ?_, ?_⟩
  · rw [hov, hld, hia, hldid, hiaid, hovid, ← hOdef]
    exact hovid.symm
  · rw [hlv, hov, hovid]
  · rw [hov, hovid]
    linarith [hO.1]
  · rw [hov, hovid]
    exact hO.2

/-! ### analyzeCode language resolution (codeAnalyzer.ts) -/

/-- Step 2 of analyzeCode: use the specified language, otherwise the
auto-detection result, falling back to typescript when detection fails.
The detection outcome is a parameter, covering every behavior of
detectLanguage. -/
def analyzeCodeLanguage (configLanguage detected : ProgrammingLanguage) :
    ProgrammingLanguage :=
  if configLanguage = .auto then
    (if detected = .auto then .typescript else detected)
  else configLanguage

/-- Step 7 of analyzeCode: calculateConfidence receives the resolved
language as detectedLanguage and the original config language as
specifiedLanguage. -/
def analyzeCodeConfidence (code : String) (configLanguage detected : ProgrammingLanguage)
    (issues : List CodeIssue) (demo : Bool) : ConfidenceScore :=
  calculateConfidence code (analyzeCodeLanguage configLanguage detected) configLanguage
    issues demo

theorem analyzeCodeLanguage_ne_auto (configLanguage detected : ProgrammingLanguage)
    (h : configLanguage = .auto) :
    analyzeCodeLanguage configLanguage detected ≠ .auto := by
  unfold analyzeCodeLanguage
  by_cases h2 : detected = .auto
  · simp [h, h2]
  · simp [h, h2]

/-- C10: through analyzeCode the 30-point language sub-score is
unreachable: the confidence attached by analyzeCode always reports a
language-detection sub-score of 75 or 100, and its factors never contain
the failed-detection message. -/
theorem analyzeCode_language_floor (code : String)
    (configLanguage detected : ProgrammingLanguage) (issues : List CodeIssue)
    (demo : Bool) :
    ((analyzeCodeConfidence code configLanguage detected issues demo).languageDetection = 75 ∨
      (analyzeCodeConfidence code configLanguage detected issues demo).languageDetection
        = 100) ∧
    "Unable to detect programming language"
      ∉ (analyzeCodeConfidence code configLanguage detected issues demo).factors := by
  have hscore : languageDetectionScore (analyzeCodeLanguage configLanguage detected)
        configLanguage = 75 ∨
      languageDetectionScore (analyzeCodeLanguage configLanguage detected)
        configLanguage = 100 := by
    unfold languageDetectionScore
    by_cases h1 : configLanguage = .auto
    · rw [if_pos h1, if_neg (analyzeCodeLanguage_ne_auto configLanguage detected h1)]
      exact Or.inl rfl
    · rw [if_neg h1]
      exact Or.inr rfl
  have hf0 : "Unable to detect programming language"
      ∉ languageDetectionFactors (analyzeCodeLanguage configLanguage detected)
          configLanguage := by
    unfold languageDetectionFactors
    by_cases h1 : configLanguage = .auto
    · rw [if_pos h1, if_neg (analyzeCodeLanguage_ne_auto configLanguage detected h1)]
      simp
    · rw [if_neg h1]
      simp
  have hbase : "Unable to detect programming language"
      ∉ confidenceFactorsBase code (analyzeCodeLanguage configLanguage detected)
          configLanguage demo := by
    unfold confidenceFactorsBase
    split_ifs <;> simp [hf0]
  have hfinal : "Unable to detect programming language"
      ∉ confidenceFactorsFinal code (analyzeCodeLanguage configLanguage detected)
          configLanguage issues demo := by
    unfold confidenceFactorsFinal
    split_ifs <;> simp [hbase] <;> split_ifs <;> simp [hbase]
  constructor
  · have hld : (analyzeCodeConfidence code configLanguage detected issues demo).languageDetection
        = max 0 (min 100 (languageDetectionScore
            (analyzeCodeLanguage configLanguage detected) configLanguage)) := rfl
    rcases hscore with h | h
    · left
      rw [hld, h]
      decide
    · right
      rw [hld, h]
      decide
  · have hfacts : (analyzeCodeConfidence code configLanguage detected issues demo).factors
        = confidenceFactorsFinal code (analyzeCodeLanguage configLanguage detected)
            configLanguage issues demo := rfl
    rw [hfacts]
    exact hfinal

/-! ### analyze-multi route control flow (POST handler) -/

/-- Responses the handler can produce, with the fields the claims inspect.
The 429 body carries the reset time and the configured limit; the headers
are the rate-limit result handed to getHeaders. -/
inductive RouteResponse (α : Type)
  | ok (result : α) (headers : Option RateLimitResult)
  | rateLimited (resetAt : Int) (limit : Int) (headers : RateLimitResult)
  | badRequest (errors : List String)
  | upstreamError (message : String)

/-- The observable outcome of one handler run. -/
structure RouteResult (α : Type) where
  response : RouteResponse α
  store : RateStore
  analysisRan : Bool
  consumed : Bool

/-- POST /api/analyze-multi control flow: pre-flight check (skipped in demo
mode) with immediate 429 rejection, then validation, then the expensive
analysis (a parameter, since the provider is external; an Except.error is
the thrown provider failure caught by the handler), and a consume issued
only after the analysis returned successfully in non-demo mode. The
analysisRan flag records whether the expensive path was entered. -/
def postAnalyzeMulti {α : Type} (demo : Bool) (cfg : RateLimitConfig) (store : RateStore)
    (now : Int) (ip : String) (validationErrors : List String)
    (analysis : Except String α) : RouteResult α :=
  if demo = false ∧ (TestRateLimiter.check cfg store now ip).allowed = false then
    { response := .rateLimited (TestRateLimiter.check cfg store now ip).resetAt
        (TestRateLimiter.check cfg store now ip).limit
        (TestRateLimiter.check cfg store now ip),
      store := store, analysisRan := false, consumed := false }
  else if validationErrors ≠ [] then
    { response := .badRequest validationErrors, store := store,
      analysisRan := false, consumed := false }
  else
    match analysis with
    | .error e =>
        { response := .upstreamError e, store := store,
          analysisRan := true, consumed := false }
    | .ok r =>
        if demo then
          { response := .ok r none, store := store,
            analysisRan := true, consumed := false }
        else
          { response := .ok r (some (TestRateLimiter.consume cfg store now ip).1),
            store := (TestRateLimiter.consume cfg store now ip).2,
            analysisRan := true, consumed := true }

/-- C8: a failed pre-flight check in non-demo mode yields the distinct
rate-limited outcome carrying the reset time and the configured limit, runs
no analysis, consumes nothing and leaves the admission store untouched;
and in every run quota is consumed only when the handler is in non-demo
mode and the analysis was actually performed and returned successfully. -/
theorem policy_denial {α : Type} (cfg : RateLimitConfig) (store : RateStore) (now : Int)
    (ip : String) (verrs : List String) (analysis : Except String α)
    (hdeny : (TestRateLimiter.check cfg store now ip).allowed = false) :
    (postAnalyzeMulti false cfg store now ip verrs analysis).response
        = .rateLimited (TestRateLimiter.check cfg store now ip).resetAt
            (TestRateLimiter.check cfg store now ip).limit
            (TestRateLimiter.check cfg store now ip) ∧
    (postAnalyzeMulti false cfg store now ip verrs analysis).analysisRan = false ∧
    (postAnalyzeMulti false cfg store now ip verrs analysis).consumed = false ∧
    (postAnalyzeMulti false cfg store now ip verrs analysis).store = store ∧
    (∀ (demo2 : Bool) (verrs2 : List String) (analysis2 : Except String α),
      (postAnalyzeMulti demo2 cfg store now ip verrs2 analysis2).consumed = true →
      demo2 = false ∧ (∃ a, analysis2 = .ok a) ∧
        (postAnalyzeMulti demo2 cfg store now ip verrs2 analysis2).analysisRan = true) := by
  refine ⟨?_, ?_, ?_, ?_, ?_⟩
  · simp [postAnalyzeMulti, hdeny]
  · simp [postAnalyzeMulti, hdeny]
  · simp [postAnalyzeMulti, hdeny]
  · simp [postAnalyzeMulti, hdeny]
  · intro demo2 verrs2 analysis2 hcons
    unfold postAnalyzeMulti at hcons
    split_ifs at hcons with h1 h2 h3
    · cases analysis2 with
      | error e => simp at hcons
      | ok a => simp at hcons
    · cases analysis2 with
      | error e => simp at hcons
      | ok a =>
          have hdemo : demo2 = false := by
            cases demo2
            · rfl
            · exact absurd rfl h3
          refine ⟨hdemo, ⟨a, rfl⟩, ?_⟩
          unfold postAnalyzeMulti
          rw [if_neg h1, if_neg h2]
          simp [h3]

/-- C8 witness: a caller at quota is rejected with 429 data and no state
change, evaluated concretely. -/
theorem policy_denial_witness :
    (TestRateLimiter.check ⟨3, 10⟩ [("ip", ⟨3, 0⟩)] 0 "ip").allowed = false ∧
    (postAnalyzeMulti false ⟨3, 10⟩ [("ip", ⟨3, 0⟩)] 0 "ip" []
        (Except.ok 7 : Except String Nat)).response
        = .rateLimited (TestRateLimiter.check ⟨3, 10⟩ [("ip", ⟨3, 0⟩)] 0 "ip").resetAt
            (TestRateLimiter.check ⟨3, 10⟩ [("ip", ⟨3, 0⟩)] 0 "ip").limit
            (TestRateLimiter.check ⟨3, 10⟩ [("ip", ⟨3, 0⟩)] 0 "ip") ∧
    (postAnalyzeMulti false ⟨3, 10⟩ [("ip", ⟨3, 0⟩)] 0 "ip" []
        (Except.ok 7 : Except String Nat)).analysisRan = false ∧
    (postAnalyzeMulti false ⟨3, 10⟩ [("ip", ⟨3, 0⟩)] 0 "ip" []
        (Except.ok 7 : Except String Nat)).consumed = false ∧
    (postAnalyzeMulti false ⟨3, 10⟩ [("ip", ⟨3, 0⟩)] 0 "ip" []
        (Except.ok 7 : Except String Nat)).store = [("ip", ⟨3, 0⟩)] := by
  have h := policy_denial ⟨3, 10⟩ [("ip", ⟨3, 0⟩)] 0 "ip" []
    (Except.ok 7 : Except String Nat) (by decide)
  exact ⟨by decide, h.1, h.2.1, h.2.2.1, h.2.2.2.1⟩

end Solidry
